import Mathlib

/-!
Verification development for the multigrid (mg) inverter of
src/lib/gpt/algorithms/inverter/mg.py.

The file contains a shallow embedding of the two cores of that module:

* the recursive V-cycle solve `inv_lvl` (mg.py lines 250-377), embedded as a
  trace semantics: each numerical side effect of a level becomes an `Event`,
  opaque collaborator calls (coarsest solver, smoothers, block
  projection/promotion) are recorded as events, and wrapper/outer solvers are
  modelled by the list of (dst, src) pairs on which they invoke their bound
  preconditioner (they are opaque external solvers; the only way they interact
  with the level structure is through that preconditioner);

* the hierarchy construction `mg.__init__` (lines 45-148), parameter
  normalization (lines 25-41), the setup engine `resetup` (lines 150-233) and
  the solver factory `mg.__call__` (lines 235-245, 379-381), embedded as
  explicit state passing over symbolic field values.

Machine reals never matter for the claims under verification (all diagnostic
norms in the source are logging-only), so vector contents are symbolic
`Val` terms recording data flow, not floating point numbers.
-/

/-! ## Part 1: the recursive solve `inv_lvl` as a trace semantics -/

/-- Identity of a field buffer.  The solve routine works on the per-level
scratch buffers `self.r[lvl]` / `self.e[lvl]` allocated in `mg.__init__`
(lines 114-120) and on externally supplied buffers (the top-level
solution/source pair, and any buffers a wrapper solver hands to its
preconditioner).  Aliasing (`psi != src`, line 259) is a statement about
buffer identity, so buffers are identified by name. -/
inductive Buf where
  | r (lvl : Nat)
  | e (lvl : Nat)
  | ext (n : Nat)
  deriving DecidableEq, Repr

/-- One observable operation of `inv_lvl` (mg.py lines 250-377).  Each
constructor is tagged with the level whose state it touches. -/
inductive Event where
  /-- `r @= src` (line 298): copy the source into the residual scratch. -/
  | copy (lvl : Nat)
  /-- the disabled presmoothing path (lines 289-295, guarded by `if False`). -/
  | presmoothStep (lvl : Nat)
  /-- `f2c(self.r[nc_lvl], r, basis)` (line 309): restrict `r[lvl]` into
  `r[lvl+1]`; `lvl` is the fine level. -/
  | restrictTo (lvl : Nat)
  /-- `self.e[nc_lvl][:] = 0.0` (line 321): zero the error scratch `e[lvl]`. -/
  | zeroE (lvl : Nat)
  /-- `c2f(self.e[nc_lvl], psi, basis)` (line 342): prolong `e[lvl+1]`
  additively into the solution; `lvl` is the fine level. -/
  | prolong (lvl : Nat)
  /-- diagnostic relative-residual computation (lines 344-348 and 359-362);
  applies `mat[lvl]` locally, logging only, never control flow. -/
  | residual (lvl : Nat)
  /-- `self.postsmooth[lvl](mat)(psi, src)` (line 357). -/
  | postsmoothStep (lvl : Nat)
  /-- `self.coarsestsolve(self.mat[lvl])(psi, src)` (line 279): the base
  case of the recursion. -/
  | coarsestSolve (lvl : Nat)
  deriving DecidableEq, Repr

/-- Failure modes of a solve call.  `aliased` is the `assert psi != src`
(line 259); `outOfGas` is the fuel-exhaustion marker of the embedding and is
never reached from a call at a level `< nlevel` (the Python recursion always
moves to level `lvl+1` and stops at `coarsest = nlevel - 1`). -/
inductive SolveErr where
  | aliased
  | outOfGas
  deriving DecidableEq, Repr

/-- Configuration visible to the solve routine: the number of levels, and the
per-level wrapper solver (`self.wrappersolve[lvl]`, line 322).  `none` models
`wrappersolve[lvl] is None`; `some calls` models an opaque outer solver that,
when invoked on `(e[lvl+1], r[lvl+1])`, calls its bound preconditioner `prec`
once for each (dst, src) pair in `calls` (its own internal numerical work
never touches another level of this hierarchy). -/
structure SolveCfg where
  nlevel : Nat
  wrappersolve : Nat → Option (List (Buf × Buf))

/-- A solve outcome: the trace of events performed, and `none` on success or
the error that aborted the call.  On an error the trace holds the events
performed before the abort. -/
abbrev SolveRes := List Event × Option SolveErr

/-- The wrapper solver's loop over its preconditioner invocations: it calls
`prec` on each configured (dst, src) pair in order, concatenating traces, and
an assertion failure inside a preconditioner call propagates out (mg.py
lines 322-328: `self.wrappersolve[lvl].prec = lambda dst, src: inv_lvl(dst,
src, nc_lvl)` followed by invoking the wrapper). -/
def runPrecCalls (prec : Buf → Buf → SolveRes) : List (Buf × Buf) → SolveRes
  | [] => ([], none)
  | (dst, s) :: rest =>
    match prec dst s with
    | (tr, some err) => (tr, some err)
    | (tr, none) =>
      match runPrecCalls prec rest with
      | (tr2, e2) => (tr ++ tr2, e2)

/-- The presmoothing branch guard: mg.py line 289 is literally `if False:`
("TODO check algorithm regarding presmoothing"), so the copy branch
(line 298) is always taken. -/
def presmoothing : Bool := false

/-- Local events of a non-coarsest level before the recursion: the
copy-or-presmooth step (lines 289-298), the restriction (line 309), and the
zero-initialization of the next-coarser error scratch (line 321). -/
def localPre (lvl : Nat) : List Event :=
  (if presmoothing then [Event.presmoothStep lvl] else [Event.copy lvl])
    ++ [Event.restrictTo lvl, Event.zeroE (lvl + 1)]

/-- Local events of a non-coarsest level after the recursion returns:
prolongation (line 342), diagnostic residual (lines 344-348), post-smoothing
(line 357), diagnostic residual (lines 359-362). -/
def localPost (lvl : Nat) : List Event :=
  [Event.prolong lvl, Event.residual lvl, Event.postsmoothStep lvl,
    Event.residual lvl]

/-- Sequencing of a non-coarsest level around its recursive step: local pre
events, the recursion's trace, and (on success) the local post events; an
abort inside the recursion propagates with the post events never
happening. -/
def glue (lvl : Nat) (recRes : SolveRes) : SolveRes :=
  match recRes with
  | (tr, some err) => (localPre lvl ++ tr, some err)
  | (tr, none) => (localPre lvl ++ tr ++ localPost lvl, none)

/-- The recurse-or-delegate step of a non-coarsest level (mg.py
lines 322-330), parameterized by `deeper`, the solve routine for the
remaining levels: with a wrapper solver, bind `lambda dst, src:
inv_lvl(dst, src, nc_lvl)` as its preconditioner and invoke the wrapper on
`(e[lvl+1], r[lvl+1])`; without one, call `inv_lvl(e[lvl+1], r[lvl+1],
lvl+1)` directly.  `nc_lvl = lvl + 1` throughout (mg.py line 74). -/
def delegateStep (cfg : SolveCfg) (deeper : Buf → Buf → Nat → SolveRes)
    (lvl : Nat) : SolveRes :=
  match cfg.wrappersolve lvl with
  | none => deeper (Buf.e (lvl + 1)) (Buf.r (lvl + 1)) (lvl + 1)
  | some calls => runPrecCalls (fun dst s => deeper dst s (lvl + 1)) calls

/-- Fuel-indexed solve: `invGas cfg g` behaves like `inv_lvl` of mg.py
(lines 250-377) as long as at most `g` nested level descents occur.  Since
every recursive call moves from `lvl` to `lvl + 1` and the base case fires at
`nlevel - 1`, fuel `nlevel - lvl` is always sufficient for a call at level
`lvl < nlevel`.  Faithful control flow: `assert psi != src` first
(line 259), then the base case `lvl == self.coarsest` (lines 277-279), else
the local pre events, the single recurse-or-delegate call (lines 320-330),
and the local post events. -/
def invGas (cfg : SolveCfg) : Nat → Buf → Buf → Nat → SolveRes
  | 0 => fun _ _ _ => ([], some SolveErr.outOfGas)
  | g + 1 => fun psi src lvl =>
    if psi = src then ([], some SolveErr.aliased)
    else if lvl = cfg.nlevel - 1 then ([Event.coarsestSolve lvl], none)
    else glue lvl (delegateStep cfg (invGas cfg g) lvl)

/-- `inv_lvl(psi, src, lvl)` of mg.py (line 250), with the sufficient fuel
`nlevel - lvl`. -/
def inv_lvl (cfg : SolveCfg) (psi src : Buf) (lvl : Nat) : SolveRes :=
  invGas cfg (cfg.nlevel - lvl) psi src lvl

/-- `invert(psi, src)` of mg.py (lines 247-248): the operator returned by
`mg.__call__` enters the recursion at the finest level `0`. -/
def invert (cfg : SolveCfg) (psi src : Buf) : SolveRes :=
  inv_lvl cfg psi src 0

/-- The preconditioner bound to the wrapper solver of level `lvl` before its
invocation (mg.py lines 323-325): `lambda dst, src: inv_lvl(dst, src,
nc_lvl)` where `nc_lvl = lvl + 1`; `g` is the fuel left for the deeper
levels (during a descent that entered at the finest level with sufficient
fuel, `g = nlevel - (lvl + 1)`). -/
def boundPrec (cfg : SolveCfg) (g lvl : Nat) : Buf → Buf → SolveRes :=
  fun dst s => invGas cfg g dst s (lvl + 1)

/-- The recurse-or-delegate step as executed with fuel `g` for the deeper
levels. -/
def recurseOrDelegate (cfg : SolveCfg) (g lvl : Nat) : SolveRes :=
  delegateStep cfg (invGas cfg g) lvl

/-- Number of coarsest-level solver invocations recorded in a trace. -/
def countCoarsest : List Event → Nat
  | [] => 0
  | Event.coarsestSolve _ :: rest => countCoarsest rest + 1
  | _ :: rest => countCoarsest rest

/-- A wrapper-solver configuration in which every configured wrapper invokes
its bound preconditioner exactly once, on a non-aliased buffer pair. -/
def SingleDelegation (cfg : SolveCfg) : Prop :=
  ∀ l, cfg.wrappersolve l = none ∨
    ∃ d s, cfg.wrappersolve l = some [(d, s)] ∧ d ≠ s

/-! ### Concrete configurations used by witnesses and counterexamples -/

/-- Two-level hierarchy (finest + coarsest), no wrapper solvers. -/
def cfgTwo : SolveCfg := ⟨2, fun _ => none⟩

/-- Three-level hierarchy whose level-0 wrapper invokes its preconditioner
exactly once, on distinct external buffers. -/
def cfgSingleWrap : SolveCfg :=
  ⟨3, fun l => if l = 0 then some [(Buf.ext 0, Buf.ext 1)] else none⟩

/-- Three-level hierarchy whose level-0 wrapper invokes its preconditioner
twice (e.g. an outer Krylov solver running two preconditioned iterations),
each time on distinct external buffers. -/
def cfgDoubleWrap : SolveCfg :=
  ⟨3, fun l => if l = 0 then
      some [(Buf.ext 0, Buf.ext 1), (Buf.ext 2, Buf.ext 3)] else none⟩

/-! ## Part 2: parameter normalization, construction and the setup engine

The setup engine mutates per-level hierarchy state (basis vectors, coarse
link fields, operator handles).  Field contents are represented by symbolic
`Val` terms that record the data flow through the opaque numerical
collaborators (`g.coarse.create_links`, `g.qcd.fermion.coarse`, the setup
solver, `g.split_chiral`, `g.block.orthonormalize`). -/

/-- A Python parameter that is either a scalar or a list
(`make_param_list`'s `type(a) == list` dispatch, mg.py lines 25-28). -/
inductive Param (α : Type) where
  | scalar (a : α)
  | list (l : List α)

/-- `make_param_list(a, c)` (mg.py lines 25-28): a list is returned
unchanged (no length check here), anything else is replicated `c` times. -/
def make_param_list {α : Type} (a : Param α) (c : Nat) : List α :=
  match a with
  | Param.list l => l
  | Param.scalar x => List.replicate c x

mutual
/-- A solver-valued Python parameter: a callable, `None`, some other
(invalid) value, or a list of such, recursively (mutual encoding of the rose
tree so that the recursive validity check computes). -/
inductive SolverParam where
  | callableV (id : Nat)
  | noneV
  | otherV (id : Nat)
  | listV (l : SolverParamList)
inductive SolverParamList where
  | nil
  | cons (x : SolverParam) (rest : SolverParamList)
end

/-- Conversion from an ordinary list of solver parameters. -/
def SolverParamList.ofList : List SolverParam → SolverParamList
  | [] => SolverParamList.nil
  | x :: rest => SolverParamList.cons x (SolverParamList.ofList rest)

/-- Conversion to an ordinary list of solver parameters. -/
def SolverParamList.toList : SolverParamList → List SolverParam
  | SolverParamList.nil => []
  | SolverParamList.cons x rest => x :: SolverParamList.toList rest

mutual
/-- `assert_correct_solver(x)` (mg.py lines 37-41): recursively, every leaf
must be callable or `None`. -/
def assert_correct_solver : SolverParam → Bool
  | SolverParam.callableV _ => true
  | SolverParam.noneV => true
  | SolverParam.otherV _ => false
  | SolverParam.listV l => assert_correct_solver_all l
def assert_correct_solver_all : SolverParamList → Bool
  | SolverParamList.nil => true
  | SolverParamList.cons x rest =>
    assert_correct_solver x && assert_correct_solver_all rest
end

/-- `make_param_list` applied to a solver-valued parameter (same Python
function, dispatching on `type(a) == list`). -/
def make_solver_param_list (a : SolverParam) (c : Nat) : List SolverParam :=
  match a with
  | SolverParam.listV l => l.toList
  | x => List.replicate c x

/-- `assert_correct_length(a, c)` (mg.py lines 31-34): `a` is the list of
the eleven per-level parameter lists (heterogeneous in Python, so the
embedding receives their lengths) and every one must have length `c`. -/
def assert_correct_length (lens : List Nat) (c : Nat) : Bool :=
  lens.all (fun n => n == c)

/-- Validation and setup failures (Python `assert` statements). -/
inductive MGErr where
  | oddBasis
  | badLength
  | badSolver
  | coarsestIsList
  | levelOutOfRange
  | missingBasis
  | badVecsType
  deriving DecidableEq, Repr

/-- The halved-basis computation (mg.py lines 78-82): each non-coarsest
level's `nbasis` entry must be even (`assert b % 2 == 0`); `nb = b // 2`. -/
def computeNb : List Nat → Except MGErr (List Nat)
  | [] => Except.ok []
  | b :: rest =>
    if b % 2 = 0 then
      match computeNb rest with
      | Except.ok nbs => Except.ok (b / 2 :: nbs)
      | Except.error e => Except.error e
    else Except.error MGErr.oddBasis

/-- Symbolic contents of a field buffer, a coarse link field, or an operator
handle, recording the data flow through the opaque numerical
collaborators. -/
inductive Val where
  /-- the externally supplied finest operator `mat_f` (mg.py line 123). -/
  | matFine
  /-- basis vector `i` of level `lvl` as initialized by the distribution
  collaborator (mg.py line 137, first `nb` vectors only). -/
  | init (lvl i : Nat)
  /-- basis vector `i` of level `lvl` as freshly allocated, never
  initialized (mg.py lines 131-136, vectors `nb` and beyond). -/
  | uninit (lvl i : Nat)
  /-- coarse link field `idx` of level `lvl` as freshly allocated in
  `mg.__init__` (mg.py lines 141-145), before any setup. -/
  | allocLink (lvl idx : Nat)
  /-- a zero-filled buffer (`psi[:] = 0.0` / `src[:] = 0.0`). -/
  | zeroV
  /-- result of `self.setupsolve[lvl](self.mat[lvl])(psi, src)` for basis
  vector `i` of level `lvl`, where `m` is the operator handle and `psi`,
  `src` the buffer contents on entry (mg.py line 207). -/
  | solveRes (lvl i : Nat) (m : Option Val) (psi src : Val)
  /-- one chiral projection of `v` produced by `g.split_chiral`
  (mg.py line 215); `plus` selects the sign component. -/
  | chiral (plus : Bool) (v : Val)
  /-- basis vector `i` of level `lvl` after block-orthonormalization pass
  `pass` (mg.py line 225); its value also depends on the other basis
  vectors, abstracted into the pass tag. -/
  | orthoV (pass lvl i : Nat) (v : Val)
  /-- coarse link field `idx` produced by `g.coarse.create_links` from the
  next-finer operator `m`, basis `b`, and the hermitian/savelinks
  parameters (mg.py lines 173-181). -/
  | link (idx : Nat) (m : Option Val) (b : Option (List Val)) (herm save : Bool)
  /-- the coarse operator `g.qcd.fermion.coarse(self.A[lvl],
  {"level": lvl})` (mg.py line 182). -/
  | matCoarse (lvl : Nat) (links : List Val)

/-- Per-level hierarchy state owned by the `mg` object: basis vector lists
(`self.basis`, `None` at the coarsest level), coarse link field lists
(`self.A`, `None` at the finest level), and operator handles (`self.mat`,
`None` until setup creates them).  Indexed by level number. -/
structure HState where
  basis : Nat → Option (List Val)
  A : Nat → Option (List Val)
  mat : Nat → Option Val

/-- Static configuration consumed by the setup engine: level count and the
per-level tunables it reads (normalized by construction). -/
structure SetupCfg where
  nlevel : Nat
  vecstype : Nat → String
  northo : Nat → Nat
  nb : Nat → Nat
  hermitian : Nat → Bool
  savelinks : Nat → Bool

/-- Replacing level `lvl`'s coarse links and operator handle
(mg.py lines 173-182). -/
def writeOp (st : HState) (lvl : Nat) (links : List Val) : HState :=
  { st with
    A := fun k => if k = lvl then some links else st.A k,
    mat := fun k => if k = lvl then some (Val.matCoarse lvl links)
      else st.mat k }

/-- Replacing level `lvl`'s basis vector list. -/
def writeBasis (st : HState) (lvl : Nat) (b : List Val) : HState :=
  { st with
    basis := fun k => if k = lvl then some b else st.basis k }

/-- `g.coarse.create_links(self.A[lvl], self.mat[nf_lvl],
self.basis[nf_lvl], {"hermitian": ..., "savelinks": ...})`
(mg.py lines 173-181): populates 9 link fields from the next-finer
operator and basis; `nf_lvl = lvl - 1`. -/
def createLinks (cfg : SetupCfg) (st : HState) (lvl : Nat) : List Val :=
  (List.range 9).map fun idx =>
    Val.link idx (st.mat (lvl - 1)) (st.basis (lvl - 1))
      (cfg.hermitian (lvl - 1)) (cfg.savelinks (lvl - 1))

/-- One iteration of the near-null-vector discovery loop body
(mg.py lines 199-207): mode "test" zeroes the trial solution and copies the
basis vector into the source; mode "null" zeroes the source and copies the
basis vector into the trial solution; any other mode hits `assert 0`.  The
result is the solution buffer produced by the setup solver, which then
overwrites the basis vector (`v @= psi`, line 208). -/
def findVec (cfg : SetupCfg) (lvl : Nat) (m : Option Val) (i : Nat)
    (v : Val) : Except MGErr Val :=
  if cfg.vecstype lvl = "test" then
    Except.ok (Val.solveRes lvl i m Val.zeroV v)
  else if cfg.vecstype lvl = "null" then
    Except.ok (Val.solveRes lvl i m v Val.zeroV)
  else Except.error MGErr.badVecsType

/-- The near-null-vector discovery loop `for i, v in
enumerate(basis[0:nb])` (mg.py lines 198-208): the first `nb` basis vectors
are rewritten through `findVec`; the rest are untouched.  `i` is the running
index. -/
def updVecs (cfg : SetupCfg) (lvl : Nat) (m : Option Val) (nb : Nat) :
    Nat → List Val → Except MGErr (List Val)
  | _, [] => Except.ok []
  | i, v :: rest =>
    if i < nb then
      match findVec cfg lvl m i v with
      | Except.error e => Except.error e
      | Except.ok v1 =>
        match updVecs cfg lvl m nb (i + 1) rest with
        | Except.error e => Except.error e
        | Except.ok rest1 => Except.ok (v1 :: rest1)
    else Except.ok (v :: rest)

/-- Modelled from the spec: `g.split_chiral(basis)` is an external
collaborator not under src/.  Per spec 4.3/6, it transforms the
half-populated basis (first `len/2` entries meaningful) into a fully
populated basis of the same list length by replacing it with the two chiral
projections of each first-half vector. -/
def splitChiral (b : List Val) : List Val :=
  let n := b.length / 2
  (b.take n).map (Val.chiral true) ++ (b.take n).map (Val.chiral false)

/-- One tagging pass over the basis for `g.block.orthonormalize`
(mg.py line 225), an external collaborator that rewrites every basis vector
in place. -/
def orthoTag (pass lvl : Nat) : Nat → List Val → List Val
  | _, [] => []
  | i, v :: rest => Val.orthoV pass lvl i v :: orthoTag pass lvl (i + 1) rest

/-- The block-orthonormalization loop `for i in range(self.northo[lvl])`
(mg.py lines 222-225), with ascending pass numbers. -/
def orthoIterFrom (lvl : Nat) : Nat → Nat → List Val → List Val
  | _, 0, b => b
  | pass, n + 1, b => orthoIterFrom lvl (pass + 1) n (orthoTag pass lvl 0 b)

/-- `northo[lvl]` block-orthonormalization passes. -/
def orthoIter (lvl n : Nat) (b : List Val) : List Val :=
  orthoIterFrom lvl 0 n b

/-- The operator phase of the `resetup` loop body (mg.py lines 171-185,
guarded by `if lvl != self.finest`): rebuild the coarse links and the
operator handle of `lvl` from the next-finer operator and basis. -/
def opPhase (cfg : SetupCfg) (st : HState) (lvl : Nat) : HState :=
  if lvl ≠ 0 then writeOp st lvl (createLinks cfg st lvl) else st

/-- The near-null-vector phase of the `resetup` loop body (mg.py
lines 187-228, guarded by `if lvl != self.coarsest`): discovery over the
first `nb` vectors (reading the operator handle current after the operator
phase), chiral splitting, and `northo[lvl]` block-orthonormalization passes,
rewriting `basis[lvl]`. -/
def vecPhase (cfg : SetupCfg) (st : HState) (lvl : Nat) :
    Except MGErr HState :=
  if lvl ≠ cfg.nlevel - 1 then
    match st.basis lvl with
    | none => Except.error MGErr.missingBasis
    | some b =>
      match updVecs cfg lvl (st.mat lvl) (cfg.nb lvl) 0 b with
      | Except.error e => Except.error e
      | Except.ok b1 =>
        Except.ok (writeBasis st lvl
          (orthoIter lvl (cfg.northo lvl) (splitChiral b1)))
  else Except.ok st

/-- The body of the `for lvl in which_lvls` loop of `resetup`
(mg.py lines 158-233): the operator phase followed by the near-null-vector
phase. -/
def setupLevel (cfg : SetupCfg) (st : HState) (lvl : Nat) :
    Except MGErr HState :=
  vecPhase cfg (opPhase cfg st lvl) lvl

/-- Sequential processing of the requested levels (mg.py line 158). -/
def setupLevels (cfg : SetupCfg) : List Nat → HState → Except MGErr HState
  | [], st => Except.ok st
  | l :: rest, st =>
    match setupLevel cfg st l with
    | Except.error e => Except.error e
    | Except.ok st1 => setupLevels cfg rest st1

/-- `resetup(which_lvls)` (mg.py lines 150-233): with an explicit level
list, every element is first checked to lie in `[finest, coarsest]` (the
`assert elem >= self.finest and elem <= self.coarsest` loop, lines 153-154;
elements are Python ints, hence `Int` here); with `None` all levels
`[0, nlevel)` are processed.  There is no contiguity check. -/
def resetup (cfg : SetupCfg) (st : HState) (which : Option (List Int)) :
    Except MGErr HState :=
  match which with
  | none => setupLevels cfg (List.range cfg.nlevel) st
  | some w =>
    if w.all (fun e => decide (0 ≤ e ∧ e ≤ (cfg.nlevel : Int) - 1)) then
      setupLevels cfg (w.map Int.toNat) st
    else Except.error MGErr.levelOutOfRange

/-- The raw construction parameters of `mg.__init__` (mg.py lines 45-63):
`nlevel = len(params["grid"])`; the grid descriptors themselves matter only
through their count and the level indices tagging the symbolic values.
`distribution` entries are opaque initializer identities. -/
structure MGParams where
  nlevel : Nat
  northo : Param Nat
  nbasis : Param Nat
  hermitian : Param Bool
  savelinks : Param Bool
  vecstype : Param String
  presmooth : SolverParam
  postsmooth : SolverParam
  setupsolve : SolverParam
  wrappersolve : SolverParam
  distribution : Param Nat
  coarsestsolve : SolverParam

/-- `self.northo` (mg.py line 53). -/
def northoL (p : MGParams) : List Nat := make_param_list p.northo (p.nlevel - 1)

/-- `self.nbasis` (mg.py line 54). -/
def nbasisL (p : MGParams) : List Nat := make_param_list p.nbasis (p.nlevel - 1)

/-- `self.hermitian` (mg.py line 55). -/
def hermitianL (p : MGParams) : List Bool :=
  make_param_list p.hermitian (p.nlevel - 1)

/-- `self.savelinks` (mg.py line 56). -/
def savelinksL (p : MGParams) : List Bool :=
  make_param_list p.savelinks (p.nlevel - 1)

/-- `self.vecstype` (mg.py line 57). -/
def vecstypeL (p : MGParams) : List String :=
  make_param_list p.vecstype (p.nlevel - 1)

/-- `self.presmooth` (mg.py line 58). -/
def presmoothL (p : MGParams) : List SolverParam :=
  make_solver_param_list p.presmooth (p.nlevel - 1)

/-- `self.postsmooth` (mg.py line 59). -/
def postsmoothL (p : MGParams) : List SolverParam :=
  make_solver_param_list p.postsmooth (p.nlevel - 1)

/-- `self.setupsolve` (mg.py line 60). -/
def setupsolveL (p : MGParams) : List SolverParam :=
  make_solver_param_list p.setupsolve (p.nlevel - 1)

/-- `self.wrappersolve` (mg.py line 61). -/
def wrappersolveL (p : MGParams) : List SolverParam :=
  make_solver_param_list p.wrappersolve (p.nlevel - 1)

/-- `self.distribution` (mg.py line 62). -/
def distributionL (p : MGParams) : List Nat :=
  make_param_list p.distribution (p.nlevel - 1)

/-- `type(x) == list` on a solver-valued parameter (mg.py line 104). -/
def isListSolver : SolverParam → Bool
  | SolverParam.listV _ => true
  | _ => false

/-- The basis vector list allocated for a non-coarsest level in
`mg.__init__` (mg.py lines 126-137): `nbasis` freshly allocated vectors, of
which the first `nb` are filled by the distribution initializer. -/
def initBasisList (lvl nbasis nb : Nat) : List Val :=
  (List.range nbasis).map fun i =>
    if i < nb then Val.init lvl i else Val.uninit lvl i

/-- The hierarchy state at the end of `mg.__init__` just before the
`self.resetup()` call (mg.py lines 114-148): freshly allocated bases at all
non-coarsest levels, 9 freshly allocated link fields at all non-finest
levels, and only the finest operator handle present. -/
def initState (p : MGParams) (nbL : List Nat) : HState :=
  { basis := fun l =>
      if l < p.nlevel - 1 then
        some (initBasisList l ((nbasisL p).getD l 0) (nbL.getD l 0))
      else none,
    A := fun l =>
      if 1 ≤ l ∧ l < p.nlevel then
        some ((List.range 9).map (Val.allocLink l))
      else none,
    mat := fun l => if l = 0 then some Val.matFine else none }

/-- The setup configuration as read by `resetup` from the normalized
per-level parameter lists. -/
def mkSetupCfg (p : MGParams) (nbL : List Nat) : SetupCfg :=
  { nlevel := p.nlevel,
    vecstype := fun l => (vecstypeL p).getD l "",
    northo := fun l => (northoL p).getD l 0,
    nb := fun l => nbL.getD l 0,
    hermitian := fun l => (hermitianL p).getD l false,
    savelinks := fun l => (savelinksL p).getD l false }

/-- `mg.__init__` (mg.py lines 45-148), in source order: normalize all
tunables with `make_param_list`, compute the halved basis sizes (failing on
an odd entry, lines 79-82), `assert_correct_length` over the eleven
per-level lists (lines 85-100), `assert_correct_solver` over
`[presmooth, postsmooth, setupsolve, coarsestsolve]` (lines 101-103),
`assert type(coarsestsolve) != list` (line 104), then allocate the per-level
state and run `self.resetup()` over all levels (line 148). -/
def mgInit (p : MGParams) : Except MGErr HState :=
  match computeNb (nbasisL p) with
  | Except.error e => Except.error e
  | Except.ok nbL =>
    if assert_correct_length
        [(northoL p).length, (nbasisL p).length, (hermitianL p).length,
          (savelinksL p).length, (vecstypeL p).length, (presmoothL p).length,
          (postsmoothL p).length, (setupsolveL p).length,
          (wrappersolveL p).length, (distributionL p).length, nbL.length]
        (p.nlevel - 1) then
      if assert_correct_solver (SolverParam.listV (SolverParamList.ofList
          [SolverParam.listV (SolverParamList.ofList (presmoothL p)),
            SolverParam.listV (SolverParamList.ofList (postsmoothL p)),
            SolverParam.listV (SolverParamList.ofList (setupsolveL p)),
            p.coarsestsolve])) then
        if isListSolver p.coarsestsolve then Except.error MGErr.coarsestIsList
        else resetup (mkSetupCfg p nbL) (initState p nbL) none
      else Except.error MGErr.badSolver
    else Except.error MGErr.badLength

/-! ## Part 3: the solver factory `mg.__call__` -/

/-- The finest operator as stored in `self.mat[0]` (the `mat_f` argument of
`mg.__init__`, line 123): either a plain callable or a `g.matrix_operator`
wrapper carrying `{otype, grid, cb}` metadata (mg.py lines 239-245). -/
inductive FinestMat where
  | raw (id : Nat)
  | wrapped (inner : Nat) (otype grid cb : Nat)
  deriving DecidableEq, Repr

/-- The `g.matrix_operator` returned by `mg.__call__` (mg.py lines 379-381):
its `mat` is the closure `invert`, which enters `inv_lvl` at level
`entryLevel` against the hierarchy's stored operator `boundMat`; it carries
the metadata extracted from `self.mat[0]` and `zero=(False, False)`. -/
structure ReturnedOp where
  boundMat : FinestMat
  entryLevel : Nat
  otype : Option Nat
  grid : Option Nat
  cb : Option Nat
  zero : Bool × Bool
  deriving DecidableEq, Repr

/-- The metadata extraction of `mg.__call__` (mg.py lines 238-245): `None`
for all three fields unless `self.mat[0]` is a wrapped matrix operator. -/
def matMeta : FinestMat → Option Nat × Option Nat × Option Nat
  | FinestMat.raw _ => (none, none, none)
  | FinestMat.wrapped _ o g c => (some o, some g, some c)

/-- `mg.__call__(matrix)` (mg.py lines 235-245 and 379-381).  The `matrix`
argument is ignored (source comment "# ignore matrix", line 236); the
returned operator dispatches `invert` into `inv_lvl(psi, src, self.finest)`
(lines 247-248), i.e. it is bound to the stored finest-level operator, and
carries the extracted metadata with both zero flags false. -/
def mgCall (stored : FinestMat) (_matrix : Option Nat) : ReturnedOp :=
  { boundMat := stored, entryLevel := 0,
    otype := (matMeta stored).1, grid := (matMeta stored).2.1,
    cb := (matMeta stored).2.2, zero := (false, false) }

/-! ## Projections used to state frame and shape properties -/

/-- Basis list of level `k` after a setup call, when the call succeeded. -/
def resBasis (r : Except MGErr HState) (k : Nat) : Option (Option (List Val)) :=
  match r with
  | Except.ok s => some (s.basis k)
  | Except.error _ => none

/-- Coarse-link list of level `k` after a setup call, when it succeeded. -/
def resA (r : Except MGErr HState) (k : Nat) : Option (Option (List Val)) :=
  match r with
  | Except.ok s => some (s.A k)
  | Except.error _ => none

/-- Operator handle of level `k` after a setup call, when it succeeded. -/
def resMat (r : Except MGErr HState) (k : Nat) : Option (Option Val) :=
  match r with
  | Except.ok s => some (s.mat k)
  | Except.error _ => none

/-- Number of basis vectors of level `l` in a successful result. -/
def basisLenAt (r : Except MGErr HState) (l : Nat) : Option Nat :=
  match r with
  | Except.ok s => (s.basis l).map List.length
  | Except.error _ => none

/-- Number of coarse link fields of level `l` in a successful result. -/
def linksLenAt (r : Except MGErr HState) (l : Nat) : Option Nat :=
  match r with
  | Except.ok s => (s.A l).map List.length
  | Except.error _ => none

/-- The expected outcome of the near-null-vector discovery loop, stated the
way the spec describes it (spec 4.3): for each index `i < nb` the basis
vector is overwritten by the setup-solver solution seeded according to the
discovery mode ("test": trial solution zeroed, basis vector as source;
"null": source zeroed, basis vector as trial solution); vectors from `nb`
on are untouched. -/
def discoverySpec (vt : String) (lvl : Nat) (m : Option Val) (nb : Nat) :
    Nat → List Val → List Val
  | _, [] => []
  | i, v :: rest =>
    if i < nb then
      (if vt = "test" then Val.solveRes lvl i m Val.zeroV v
        else Val.solveRes lvl i m v Val.zeroV) ::
        discoverySpec vt lvl m nb (i + 1) rest
    else v :: rest

/-- Whether an `Except` computation succeeded. -/
def isOkE {α : Type} : Except MGErr α → Bool
  | Except.ok _ => true
  | Except.error _ => false

/-- All ten tunables (and implicitly `nb`) normalized to per-level lists of
length exactly `nlevel - 1`. -/
def NormalizedLengths (p : MGParams) : Prop :=
  (northoL p).length = p.nlevel - 1
  ∧ (nbasisL p).length = p.nlevel - 1
  ∧ (hermitianL p).length = p.nlevel - 1
  ∧ (savelinksL p).length = p.nlevel - 1
  ∧ (vecstypeL p).length = p.nlevel - 1
  ∧ (presmoothL p).length = p.nlevel - 1
  ∧ (postsmoothL p).length = p.nlevel - 1
  ∧ (setupsolveL p).length = p.nlevel - 1
  ∧ (wrappersolveL p).length = p.nlevel - 1
  ∧ (distributionL p).length = p.nlevel - 1

/-- The solver validation actually performed by construction: the coarsest
solver is not a list and passes the recursive callable-or-None check, and
every normalized pre-smoother, post-smoother and setup-solver entry passes
it.  (The wrapper solver is absent: mg.py lines 101-103 do not include
`self.wrappersolve`.) -/
def ValidatedSolvers (p : MGParams) : Prop :=
  isListSolver p.coarsestsolve = false
  ∧ assert_correct_solver p.coarsestsolve = true
  ∧ (∀ s ∈ presmoothL p, assert_correct_solver s = true)
  ∧ (∀ s ∈ postsmoothL p, assert_correct_solver s = true)
  ∧ (∀ s ∈ setupsolveL p, assert_correct_solver s = true)

/-- Shape invariant of the hierarchy state: every non-coarsest level `l`
holds a basis of `lens l` vectors, every non-finest level holds exactly 9
coarse link fields. -/
def BasisShapes (nlv : Nat) (lens : Nat → Nat) (st : HState) : Prop :=
  (∀ l, l < nlv - 1 → (st.basis l).map List.length = some (lens l))
  ∧ (∀ l, 1 ≤ l → l < nlv → (st.A l).map List.length = some 9)

/-! ### Concrete setup instances used by witnesses and counterexamples -/

/-- A three-level setup configuration: discovery mode "test", one
orthonormalization pass, one discovery vector per level. -/
def cfgThree : SetupCfg :=
  { nlevel := 3, vecstype := fun _ => "test", northo := fun _ => 1,
    nb := fun _ => 1, hermitian := fun _ => false,
    savelinks := fun _ => false }

/-- `cfgThree` with an unknown vector-discovery mode. -/
def cfgBadMode : SetupCfg :=
  { cfgThree with vecstype := fun _ => "neither" }

/-- A small three-level hierarchy state as left by construction: two basis
vectors at levels 0 and 1, allocated links at levels 1 and 2, finest
operator present. -/
def stThree : HState :=
  { basis := fun l =>
      if l = 0 then some [Val.init 0 0, Val.uninit 0 1]
      else if l = 1 then some [Val.init 1 0, Val.uninit 1 1]
      else none,
    A := fun l =>
      if 1 ≤ l ∧ l < 3 then some ((List.range 9).map (Val.allocLink l))
      else none,
    mat := fun l => if l = 0 then some Val.matFine else none }

/-- A valid two-level parameter set: scalar tunables, `nbasis = 2`, all
validated solver parameters callable, no wrapper solver. -/
def pTwo : MGParams :=
  { nlevel := 2, northo := Param.scalar 1, nbasis := Param.scalar 2,
    hermitian := Param.scalar false, savelinks := Param.scalar true,
    vecstype := Param.scalar "test",
    presmooth := SolverParam.callableV 0,
    postsmooth := SolverParam.callableV 1,
    setupsolve := SolverParam.callableV 2,
    wrappersolve := SolverParam.noneV,
    distribution := Param.scalar 0,
    coarsestsolve := SolverParam.callableV 3 }

/-- `pTwo` with an odd basis size at the non-coarsest level. -/
def pOdd : MGParams := { pTwo with nbasis := Param.scalar 3 }

/-- `pTwo` with a wrapper solver that is neither callable nor `None` nor a
list of such (e.g. an integer). -/
def pWrapBad : MGParams := { pTwo with wrappersolve := SolverParam.otherV 7 }

/-! ## Lemmas and claim theorems -/

/-- The wrapper branch of the recursion invokes the wrapper with exactly the
bound preconditioner; the direct branch is the plain recursive call. -/
theorem recurseOrDelegate_eq (cfg : SolveCfg) (g lvl : Nat) :
    recurseOrDelegate cfg g lvl =
      match cfg.wrappersolve lvl with
      | none => invGas cfg g (Buf.e (lvl + 1)) (Buf.r (lvl + 1)) (lvl + 1)
      | some calls => runPrecCalls (boundPrec cfg g lvl) calls := by
  cases h : cfg.wrappersolve lvl with
  | none => simp [recurseOrDelegate, delegateStep, h]
  | some calls =>
    simp only [recurseOrDelegate, delegateStep, h]
    rfl

/-- Unfolding a non-coarsest, non-aliased solve step into the glued form. -/
theorem invGas_succ_eq (cfg : SolveCfg) (g : Nat) (psi src : Buf) (lvl : Nat)
    (hl : lvl ≠ cfg.nlevel - 1) (hps : psi ≠ src) :
    invGas cfg (g + 1) psi src lvl = glue lvl (recurseOrDelegate cfg g lvl) := by
  show (if psi = src then ([], some SolveErr.aliased)
    else if lvl = cfg.nlevel - 1 then ([Event.coarsestSolve lvl], none)
    else glue lvl (delegateStep cfg (invGas cfg g) lvl)) = _
  rw [if_neg hps, if_neg hl, recurseOrDelegate]

/-- Unfolding a non-aliased solve step at the coarsest level. -/
theorem invGas_coarsest_eq (cfg : SolveCfg) (g : Nat) (psi src : Buf)
    (lvl : Nat) (hl : lvl = cfg.nlevel - 1) (hps : psi ≠ src) :
    invGas cfg (g + 1) psi src lvl = ([Event.coarsestSolve lvl], none) := by
  show (if psi = src then ([], some SolveErr.aliased)
    else if lvl = cfg.nlevel - 1 then ([Event.coarsestSolve lvl], none)
    else glue lvl (delegateStep cfg (invGas cfg g) lvl)) = _
  rw [if_neg hps, if_pos hl]

theorem countCoarsest_append (a b : List Event) :
    countCoarsest (a ++ b) = countCoarsest a + countCoarsest b := by
  induction a with
  | nil => simp [countCoarsest]
  | cons x rest ih =>
    cases x
    all_goals simp [countCoarsest, ih]
    omega

theorem countCoarsest_localPre (lvl : Nat) : countCoarsest (localPre lvl) = 0 := by
  simp [localPre, presmoothing, countCoarsest]

theorem countCoarsest_localPost (lvl : Nat) : countCoarsest (localPost lvl) = 0 := by
  simp [localPost, countCoarsest]

/-- Core counting lemma: with single-delegation wrappers, a non-aliased solve
call at a level `lvl < nlevel` with fuel `nlevel - lvl` succeeds and its
trace contains exactly one coarsest-solver invocation. -/
theorem invGas_count_one (cfg : SolveCfg) (hw : SingleDelegation cfg) :
    ∀ g lvl psi src, psi ≠ src → lvl < cfg.nlevel → g = cfg.nlevel - lvl →
      (invGas cfg g psi src lvl).2 = none ∧
        countCoarsest (invGas cfg g psi src lvl).1 = 1 := by
  intro g
  induction g with
  | zero => intro lvl psi src _ hlt hg; omega
  | succ g ih =>
    intro lvl psi src hps hlt hg
    by_cases hc : lvl = cfg.nlevel - 1
    · rw [invGas_coarsest_eq cfg g psi src lvl hc hps]
      simp [countCoarsest]
    · rw [invGas_succ_eq cfg g psi src lvl hc hps]
      have hlt1 : lvl + 1 < cfg.nlevel := by omega
      have hg1 : g = cfg.nlevel - (lvl + 1) := by omega
      rcases hw lvl with hnone | ⟨d, s, hsome, hds⟩
      · have her : Buf.e (lvl + 1) ≠ Buf.r (lvl + 1) := by simp
        obtain ⟨h1, h2⟩ := ih (lvl + 1) (Buf.e (lvl + 1)) (Buf.r (lvl + 1)) her hlt1 hg1
        rw [recurseOrDelegate, delegateStep, hnone]
        rcases hres : invGas cfg g (Buf.e (lvl + 1)) (Buf.r (lvl + 1)) (lvl + 1)
          with ⟨tr, err⟩
        rw [hres] at h1 h2
        simp only at h1 h2
        subst h1
        simp [glue, countCoarsest_append, countCoarsest_localPre,
          countCoarsest_localPost, h2]
      · obtain ⟨h1, h2⟩ := ih (lvl + 1) d s hds hlt1 hg1
        rw [recurseOrDelegate, delegateStep, hsome]
        rcases hres : invGas cfg g d s (lvl + 1) with ⟨tr, err⟩
        rw [hres] at h1 h2
        simp only at h1 h2
        subst h1
        simp [runPrecCalls, hres, glue, countCoarsest_append,
          countCoarsest_localPre, countCoarsest_localPost, h2, countCoarsest]

/-- Aliased buffers abort before anything else: the alias check is the first
branch of the solve step. -/
theorem invGas_alias (cfg : SolveCfg) (g : Nat) (b : Buf) (lvl : Nat) :
    invGas cfg (g + 1) b b lvl = ([], some SolveErr.aliased) := by
  show (if b = b then ([], some SolveErr.aliased)
    else if lvl = cfg.nlevel - 1 then ([Event.coarsestSolve lvl], none)
    else glue lvl (delegateStep cfg (invGas cfg g) lvl)) = _
  rw [if_pos rfl]

/-! ### Claims about the recursive solve -/

/-- C1: at every non-coarsest level, a (non-aliased) call of the recursive
solve step performs exactly: copy the source into `r[lvl]` (the presmoothing
branch is disabled, so `localPre` starts with the copy, then the restriction
into `r[lvl+1]` and the zeroing of `e[lvl+1]`), then the single
recurse-or-delegate step, then the local post phase (prolong additively into
the solution, a logging-only residual, the post-smoother, a second
logging-only residual).  `glue` shows that the recursion result is the only
non-local part: every other event of the step is produced by `localPre` and
`localPost`, which mention only level-`lvl` operations and the two
level-`lvl+1` scratch initializations. -/
theorem C1_vcycle_step_order (cfg : SolveCfg) (psi src : Buf) (lvl : Nat)
    (hl : lvl < cfg.nlevel - 1) (hps : psi ≠ src) :
    inv_lvl cfg psi src lvl =
      glue lvl (recurseOrDelegate cfg (cfg.nlevel - (lvl + 1)) lvl)
    ∧ localPre lvl =
      [Event.copy lvl, Event.restrictTo lvl, Event.zeroE (lvl + 1)] := by
  constructor
  · have h : cfg.nlevel - lvl = (cfg.nlevel - (lvl + 1)) + 1 := by omega
    rw [inv_lvl, h]
    exact invGas_succ_eq cfg _ psi src lvl (by omega) hps
  · simp [localPre, presmoothing]

/-- Witness for C1 on a concrete two-level hierarchy. -/
theorem C1_vcycle_step_order_witness :
    inv_lvl cfgTwo (Buf.ext 0) (Buf.ext 1) 0 =
      glue 0 (recurseOrDelegate cfgTwo 1 0)
    ∧ localPre 0 = [Event.copy 0, Event.restrictTo 0, Event.zeroE 1] :=
  C1_vcycle_step_order cfgTwo (Buf.ext 0) (Buf.ext 1) 0 (by decide) (by decide)

/-- C2 (amended): one invocation of the returned solve operator performs
exactly one coarsest-level solve, for any number of levels, provided every
configured wrapper solver invokes its bound preconditioner exactly once (in
particular when no wrapper solvers are configured).  The original claim's
"any wrapper-solver configuration" fails: see `C2_counterexample`. -/
theorem C2_coarsest_called_once (cfg : SolveCfg) (psi src : Buf)
    (hw : SingleDelegation cfg) (h0 : 0 < cfg.nlevel) (hps : psi ≠ src) :
    (invert cfg psi src).2 = none ∧
      countCoarsest (invert cfg psi src).1 = 1 :=
  invGas_count_one cfg hw (cfg.nlevel - 0) 0 psi src hps h0 rfl

/-- Witness for C2 on a three-level hierarchy with a single-delegation
wrapper at level 0. -/
theorem C2_coarsest_called_once_witness :
    (invert cfgSingleWrap (Buf.ext 4) (Buf.ext 5)).2 = none ∧
      countCoarsest (invert cfgSingleWrap (Buf.ext 4) (Buf.ext 5)).1 = 1 :=
  C2_coarsest_called_once cfgSingleWrap (Buf.ext 4) (Buf.ext 5)
    (by
      intro l
      by_cases h : l = 0
      · exact Or.inr ⟨Buf.ext 0, Buf.ext 1, by simp [cfgSingleWrap, h], by decide⟩
      · exact Or.inl (by simp [cfgSingleWrap, h]))
    (by decide) (by decide)

/-- Counterexample to C2 as stated: in a three-level hierarchy whose level-0
wrapper solver invokes its bound preconditioner twice, one invocation of the
returned solve operator performs two coarsest-level solves (the wrapper is an
opaque external solver and nothing constrains it to a single preconditioner
call), contradicting "invoked exactly once ... for any wrapper-solver
configuration". -/
theorem C2_counterexample :
    countCoarsest (invert cfgDoubleWrap (Buf.ext 4) (Buf.ext 5)).1 = 2 ∧
      (invert cfgDoubleWrap (Buf.ext 4) (Buf.ext 5)).2 = none := by
  constructor <;> rfl

/-- C3: at a level with a wrapper solver, the preconditioner bound to that
wrapper before its invocation is extensionally the recursive solve step at
level `lvl + 1`: applied to any (dst, src) pair it produces exactly
`inv_lvl(dst, src, lvl + 1)`; and with `wrappersolve[lvl] = None` the
recurse-or-delegate step is the direct call
`inv_lvl(e[lvl+1], r[lvl+1], lvl+1)`, with no wrapper involved.  (The fuel
`cfg.nlevel - (lvl + 1)` is the fuel the preconditioner actually has at that
point of a descent entered at the finest level.) -/
theorem C3_delegation_transparency (cfg : SolveCfg) (lvl : Nat)
    (_hl : lvl < cfg.nlevel - 1) :
    (∀ dst s, boundPrec cfg (cfg.nlevel - (lvl + 1)) lvl dst s =
        inv_lvl cfg dst s (lvl + 1))
    ∧ (cfg.wrappersolve lvl = none →
        recurseOrDelegate cfg (cfg.nlevel - (lvl + 1)) lvl =
          inv_lvl cfg (Buf.e (lvl + 1)) (Buf.r (lvl + 1)) (lvl + 1)) := by
  constructor
  · intro dst s
    rfl
  · intro h
    simp only [recurseOrDelegate, delegateStep, h]
    rfl

/-- Witness for C3 on a concrete two-level hierarchy without wrappers. -/
theorem C3_delegation_transparency_witness :
    boundPrec cfgTwo 1 0 (Buf.ext 0) (Buf.ext 1) =
      inv_lvl cfgTwo (Buf.ext 0) (Buf.ext 1) 1
    ∧ recurseOrDelegate cfgTwo 1 0 = inv_lvl cfgTwo (Buf.e 1) (Buf.r 1) 1 :=
  ⟨(C3_delegation_transparency cfgTwo 0 (by decide)).1 (Buf.ext 0) (Buf.ext 1),
   (C3_delegation_transparency cfgTwo 0 (by decide)).2 rfl⟩

/-- C5: at every level of the recursion, a call whose solution and source are
the same buffer fails at the alias assertion (mg.py line 259) with an empty
trace: no numerical work of that level (and no deeper level) is performed. -/
theorem C5_alias_aborts (cfg : SolveCfg) (b : Buf) (lvl : Nat)
    (hl : lvl < cfg.nlevel) :
    inv_lvl cfg b b lvl = ([], some SolveErr.aliased) := by
  have h : cfg.nlevel - lvl = (cfg.nlevel - lvl - 1) + 1 := by omega
  rw [inv_lvl, h]
  exact invGas_alias cfg _ b lvl

/-- Witness for C5: aliasing the top-level solution and source buffers on a
two-level hierarchy aborts with an empty trace. -/
theorem C5_alias_aborts_witness :
    inv_lvl cfgTwo (Buf.ext 0) (Buf.ext 0) 0 = ([], some SolveErr.aliased) :=
  C5_alias_aborts cfgTwo (Buf.ext 0) 0 (by decide)

/-! ### Frame lemmas for the setup engine -/

theorem writeOp_basis (st : HState) (lvl : Nat) (L : List Val) (k : Nat) :
    (writeOp st lvl L).basis k = st.basis k := rfl

theorem writeOp_A_ne (st : HState) (lvl : Nat) (L : List Val) (k : Nat)
    (h : k ≠ lvl) : (writeOp st lvl L).A k = st.A k := by
  simp [writeOp, h]

theorem writeOp_mat_ne (st : HState) (lvl : Nat) (L : List Val) (k : Nat)
    (h : k ≠ lvl) : (writeOp st lvl L).mat k = st.mat k := by
  simp [writeOp, h]

theorem writeBasis_basis_ne (st : HState) (lvl : Nat) (b : List Val) (k : Nat)
    (h : k ≠ lvl) : (writeBasis st lvl b).basis k = st.basis k := by
  simp [writeBasis, h]

theorem writeBasis_A (st : HState) (lvl : Nat) (b : List Val) (k : Nat) :
    (writeBasis st lvl b).A k = st.A k := rfl

theorem writeBasis_mat (st : HState) (lvl : Nat) (b : List Val) (k : Nat) :
    (writeBasis st lvl b).mat k = st.mat k := rfl

theorem opPhase_frame (cfg : SetupCfg) (st : HState) (lvl k : Nat)
    (hk : k ≠ lvl) :
    (opPhase cfg st lvl).basis k = st.basis k
    ∧ (opPhase cfg st lvl).A k = st.A k
    ∧ (opPhase cfg st lvl).mat k = st.mat k := by
  rw [opPhase]
  split
  · exact ⟨writeOp_basis _ _ _ _, writeOp_A_ne _ _ _ _ hk,
      writeOp_mat_ne _ _ _ _ hk⟩
  · exact ⟨rfl, rfl, rfl⟩

theorem vecPhase_frame (cfg : SetupCfg) (st st1 : HState) (lvl k : Nat)
    (hk : k ≠ lvl) (h : vecPhase cfg st lvl = Except.ok st1) :
    st1.basis k = st.basis k ∧ st1.A k = st.A k ∧ st1.mat k = st.mat k := by
  rw [vecPhase] at h
  split at h
  · rcases hb : st.basis lvl with _ | b
    · simp only [hb] at h
      exact absurd h (by simp)
    · simp only [hb] at h
      rcases hu : updVecs cfg lvl (st.mat lvl) (cfg.nb lvl) 0 b with e | b1
      · simp only [hu] at h
        exact absurd h (by simp)
      · simp only [hu, Except.ok.injEq] at h
        subst h
        exact ⟨writeBasis_basis_ne _ _ _ _ hk, writeBasis_A _ _ _ _,
          writeBasis_mat _ _ _ _⟩
  · simp only [Except.ok.injEq] at h
    subst h
    exact ⟨rfl, rfl, rfl⟩

theorem setupLevel_frame (cfg : SetupCfg) (st st1 : HState) (lvl k : Nat)
    (hk : k ≠ lvl) (h : setupLevel cfg st lvl = Except.ok st1) :
    st1.basis k = st.basis k ∧ st1.A k = st.A k ∧ st1.mat k = st.mat k := by
  rw [setupLevel] at h
  obtain ⟨h1, h2, h3⟩ := vecPhase_frame cfg (opPhase cfg st lvl) st1 lvl k hk h
  obtain ⟨g1, g2, g3⟩ := opPhase_frame cfg st lvl k hk
  exact ⟨h1.trans g1, h2.trans g2, h3.trans g3⟩

/-- C4: a successful singleton `resetup([l])` leaves the basis list, the
coarse-link list and the operator handle of every level `k ≠ l` exactly as
they were before the call; only level `l`'s state may be rewritten. -/
theorem C4_resetup_frame (cfg : SetupCfg) (st : HState) (l k : Nat)
    (hok : isOkE (resetup cfg st (some [(l : Int)])) = true) (hk : k ≠ l) :
    resBasis (resetup cfg st (some [(l : Int)])) k = some (st.basis k)
    ∧ resA (resetup cfg st (some [(l : Int)])) k = some (st.A k)
    ∧ resMat (resetup cfg st (some [(l : Int)])) k = some (st.mat k) := by
  by_cases hc : ([(l : Int)].all
      (fun e => decide (0 ≤ e ∧ e ≤ (cfg.nlevel : Int) - 1))) = true
  · rw [resetup, if_pos hc] at hok ⊢
    have hmap : ([(l : Int)].map Int.toNat) = [l] := by simp
    rw [hmap] at hok ⊢
    simp only [setupLevels] at hok ⊢
    rcases hsl : setupLevel cfg st l with e | st1
    · rw [hsl] at hok
      exact absurd hok (by simp [isOkE])
    · obtain ⟨h1, h2, h3⟩ := setupLevel_frame cfg st st1 l k hk hsl
      simp [setupLevels, resBasis, resA, resMat, h1, h2, h3]
  · rw [resetup, if_neg hc] at hok
    exact absurd hok (by simp [isOkE])

/-- Witness for C4: on a concrete three-level hierarchy, `resetup([1])`
succeeds and leaves level 0's basis, links and operator untouched. -/
theorem C4_resetup_frame_witness :
    resBasis (resetup cfgThree stThree (some [(1 : Int)])) 0 =
      some (stThree.basis 0)
    ∧ resA (resetup cfgThree stThree (some [(1 : Int)])) 0 =
      some (stThree.A 0)
    ∧ resMat (resetup cfgThree stThree (some [(1 : Int)])) 0 =
      some (stThree.mat 0) :=
  C4_resetup_frame cfgThree stThree 1 0 rfl (by decide)

/-! ### Near-null-vector discovery -/

theorem findVec_test (cfg : SetupCfg) (lvl : Nat) (m : Option Val) (i : Nat)
    (v : Val) (h : cfg.vecstype lvl = "test") :
    findVec cfg lvl m i v = Except.ok (Val.solveRes lvl i m Val.zeroV v) := by
  rw [findVec, if_pos h]

theorem findVec_null (cfg : SetupCfg) (lvl : Nat) (m : Option Val) (i : Nat)
    (v : Val) (h : cfg.vecstype lvl = "null") :
    findVec cfg lvl m i v = Except.ok (Val.solveRes lvl i m v Val.zeroV) := by
  rw [findVec, h, if_neg (by decide), if_pos rfl]

theorem findVec_bad (cfg : SetupCfg) (lvl : Nat) (m : Option Val) (i : Nat)
    (v : Val) (h1 : cfg.vecstype lvl ≠ "test")
    (h2 : cfg.vecstype lvl ≠ "null") :
    findVec cfg lvl m i v = Except.error MGErr.badVecsType := by
  rw [findVec, if_neg h1, if_neg h2]

theorem updVecs_test (cfg : SetupCfg) (lvl : Nat) (m : Option Val) (nb : Nat)
    (h : cfg.vecstype lvl = "test") :
    ∀ i b, updVecs cfg lvl m nb i b =
      Except.ok (discoverySpec "test" lvl m nb i b) := by
  intro i b
  induction b generalizing i with
  | nil => rfl
  | cons v rest ih =>
    by_cases hi : i < nb
    · rw [updVecs, if_pos hi, findVec_test cfg lvl m i v h, ih (i + 1)]
      rw [discoverySpec, if_pos hi, if_pos rfl]
    · rw [updVecs, if_neg hi, discoverySpec, if_neg hi]

theorem updVecs_null (cfg : SetupCfg) (lvl : Nat) (m : Option Val) (nb : Nat)
    (h : cfg.vecstype lvl = "null") :
    ∀ i b, updVecs cfg lvl m nb i b =
      Except.ok (discoverySpec "null" lvl m nb i b) := by
  intro i b
  induction b generalizing i with
  | nil => rfl
  | cons v rest ih =>
    by_cases hi : i < nb
    · rw [updVecs, if_pos hi, findVec_null cfg lvl m i v h, ih (i + 1)]
      rw [discoverySpec, if_pos hi, if_neg (by decide)]
    · rw [updVecs, if_neg hi, discoverySpec, if_neg hi]

theorem updVecs_bad (cfg : SetupCfg) (lvl : Nat) (m : Option Val) (nb : Nat)
    (v : Val) (rest : List Val) (h1 : cfg.vecstype lvl ≠ "test")
    (h2 : cfg.vecstype lvl ≠ "null") (hnb : 0 < nb) :
    updVecs cfg lvl m nb 0 (v :: rest) = Except.error MGErr.badVecsType := by
  rw [updVecs, if_pos hnb, findVec_bad cfg lvl m 0 v h1 h2]

/-- C6: during setup of a non-coarsest level, each of the first `nb` basis
vectors is rewritten to the setup-solver solution whose seeding depends on
the discovery mode — "test" zeroes the trial solution and uses the basis
vector as source (`solveRes` with `psi = zeroV`, `src = v`), "null" zeroes
the source and uses the basis vector as trial solution (`psi = v`,
`src = zeroV`) — vectors beyond `nb` are untouched, and any other mode
aborts the level's setup immediately with no fallback. -/
theorem C6_discovery_modes (cfg : SetupCfg) (lvl : Nat) (m : Option Val)
    (nb i : Nat) (b : List Val) (st : HState) (v : Val) (rest : List Val) :
    (cfg.vecstype lvl = "test" →
      updVecs cfg lvl m nb i b =
        Except.ok (discoverySpec "test" lvl m nb i b))
    ∧ (cfg.vecstype lvl = "null" →
      updVecs cfg lvl m nb i b =
        Except.ok (discoverySpec "null" lvl m nb i b))
    ∧ (cfg.vecstype lvl ≠ "test" → cfg.vecstype lvl ≠ "null" →
        0 < cfg.nb lvl → lvl ≠ cfg.nlevel - 1 →
        st.basis lvl = some (v :: rest) →
        setupLevel cfg st lvl = Except.error MGErr.badVecsType) := by
  refine ⟨fun h => updVecs_test cfg lvl m nb h i b,
    fun h => updVecs_null cfg lvl m nb h i b,
    fun h1 h2 hnb hcl hb => ?_⟩
  have hb1 : (opPhase cfg st lvl).basis lvl = some (v :: rest) := by
    rw [opPhase]
    split
    · rw [writeOp_basis, hb]
    · exact hb
  rw [setupLevel, vecPhase, if_pos hcl]
  simp only [hb1]
  rw [updVecs_bad cfg lvl ((opPhase cfg st lvl).mat lvl) (cfg.nb lvl)
    v rest h1 h2 hnb]

/-- Witness for C6: the "test" mode loop on a concrete two-vector basis, and
the immediate abort of `setupLevel` under an unknown mode. -/
theorem C6_discovery_modes_witness :
    updVecs cfgThree 0 (some Val.matFine) 1 0 [Val.init 0 0, Val.uninit 0 1]
      = Except.ok (discoverySpec "test" 0 (some Val.matFine) 1 0
          [Val.init 0 0, Val.uninit 0 1])
    ∧ setupLevel cfgBadMode stThree 0 = Except.error MGErr.badVecsType :=
  ⟨(C6_discovery_modes cfgThree 0 (some Val.matFine) 1 0
      [Val.init 0 0, Val.uninit 0 1] stThree (Val.init 0 0)
      [Val.uninit 0 1]).1 rfl,
   (C6_discovery_modes cfgBadMode 0 (some Val.matFine) 1 0
      [Val.init 0 0, Val.uninit 0 1] stThree (Val.init 0 0)
      [Val.uninit 0 1]).2.2 (by decide) (by decide) (by decide) (by decide)
      rfl⟩

/-! ### Shape preservation through setup -/

theorem updVecs_length (cfg : SetupCfg) (lvl : Nat) (m : Option Val)
    (nb : Nat) : ∀ (i : Nat) (b b1 : List Val),
    updVecs cfg lvl m nb i b = Except.ok b1 → b1.length = b.length := by
  intro i b
  induction b generalizing i with
  | nil =>
    intro b1 h
    simp only [updVecs, Except.ok.injEq] at h
    subst h
    rfl
  | cons v rest ih =>
    intro b1 h
    rw [updVecs] at h
    by_cases hi : i < nb
    · rw [if_pos hi] at h
      rcases hf : findVec cfg lvl m i v with e | v1
      · simp [hf] at h
      · simp only [hf] at h
        rcases hu : updVecs cfg lvl m nb (i + 1) rest with e | rest1
        · simp [hu] at h
        · simp only [hu, Except.ok.injEq] at h
          subst h
          simp [ih (i + 1) rest1 hu]
    · rw [if_neg hi] at h
      simp only [Except.ok.injEq] at h
      subst h
      rfl

theorem splitChiral_length (b : List Val) (h : b.length % 2 = 0) :
    (splitChiral b).length = b.length := by
  simp [splitChiral]
  omega

theorem orthoTag_length (pass lvl : Nat) :
    ∀ (i : Nat) (b : List Val), (orthoTag pass lvl i b).length = b.length := by
  intro i b
  induction b generalizing i with
  | nil => rfl
  | cons v rest ih => simp [orthoTag, ih (i + 1)]

theorem orthoIterFrom_length (lvl : Nat) :
    ∀ (n pass : Nat) (b : List Val),
      (orthoIterFrom lvl pass n b).length = b.length := by
  intro n
  induction n with
  | zero => intro pass b; rfl
  | succ n ih =>
    intro pass b
    rw [orthoIterFrom, ih (pass + 1), orthoTag_length]

theorem createLinks_length (cfg : SetupCfg) (st : HState) (lvl : Nat) :
    (createLinks cfg st lvl).length = 9 := by
  simp [createLinks]

theorem opPhase_shapes (cfg : SetupCfg) (lens : Nat → Nat) (st : HState)
    (lvl : Nat) (hst : BasisShapes cfg.nlevel lens st) :
    BasisShapes cfg.nlevel lens (opPhase cfg st lvl) := by
  obtain ⟨hb, ha⟩ := hst
  constructor
  · intro l hl
    rw [opPhase]
    split
    · rw [writeOp_basis]
      exact hb l hl
    · exact hb l hl
  · intro l h1 h2
    rw [opPhase]
    split
    · by_cases hl : l = lvl
      · subst hl
        simp [writeOp, createLinks]
      · rw [writeOp_A_ne _ _ _ _ hl]
        exact ha l h1 h2
    · exact ha l h1 h2

theorem vecPhase_shapes (cfg : SetupCfg) (lens : Nat → Nat) (st st1 : HState)
    (lvl : Nat) (heven : ∀ l, lens l % 2 = 0)
    (hst : BasisShapes cfg.nlevel lens st)
    (h : vecPhase cfg st lvl = Except.ok st1) :
    BasisShapes cfg.nlevel lens st1 := by
  obtain ⟨hb, ha⟩ := hst
  rw [vecPhase] at h
  split at h
  · next hcl =>
    rcases hbl : st.basis lvl with _ | b
    · simp [hbl] at h
    · simp only [hbl] at h
      rcases hu : updVecs cfg lvl (st.mat lvl) (cfg.nb lvl) 0 b with e | b1
      · simp [hu] at h
      · simp only [hu, Except.ok.injEq] at h
        subst h
        constructor
        · intro l hl
          by_cases heq : l = lvl
          · subst heq
            have hlen : b.length = lens l := by
              have hx := hb l hl
              rw [hbl] at hx
              simpa using hx
            have hlen1 : b1.length = lens l :=
              (updVecs_length cfg l (st.mat l) (cfg.nb l) 0 b b1 hu).trans hlen
            have hnew : (orthoIter l (cfg.northo l)
                (splitChiral b1)).length = lens l := by
              rw [orthoIter, orthoIterFrom_length,
                splitChiral_length b1 (by rw [hlen1]; exact heven l), hlen1]
            simp [writeBasis, hnew]
          · rw [writeBasis_basis_ne _ _ _ _ heq]
            exact hb l hl
        · intro l h1 h2
          rw [writeBasis_A]
          exact ha l h1 h2
  · simp only [Except.ok.injEq] at h
    subst h
    exact ⟨hb, ha⟩

theorem setupLevel_shapes (cfg : SetupCfg) (lens : Nat → Nat) (st st1 : HState)
    (lvl : Nat) (heven : ∀ l, lens l % 2 = 0)
    (hst : BasisShapes cfg.nlevel lens st)
    (h : setupLevel cfg st lvl = Except.ok st1) :
    BasisShapes cfg.nlevel lens st1 := by
  rw [setupLevel] at h
  exact vecPhase_shapes cfg lens (opPhase cfg st lvl) st1 lvl heven
    (opPhase_shapes cfg lens st lvl hst) h

theorem setupLevels_shapes (cfg : SetupCfg) (lens : Nat → Nat)
    (heven : ∀ l, lens l % 2 = 0) :
    ∀ (ls : List Nat) (st st1 : HState), BasisShapes cfg.nlevel lens st →
      setupLevels cfg ls st = Except.ok st1 →
      BasisShapes cfg.nlevel lens st1 := by
  intro ls
  induction ls with
  | nil =>
    intro st st1 hst h
    simp only [setupLevels, Except.ok.injEq] at h
    subst h
    exact hst
  | cons l rest ih =>
    intro st st1 hst h
    simp only [setupLevels] at h
    rcases hsl : setupLevel cfg st l with e | st2
    · simp [hsl] at h
    · simp only [hsl] at h
      exact ih st2 st1 (setupLevel_shapes cfg lens st st2 l heven hst hsl) h

theorem initState_shapes (p : MGParams) (nbL : List Nat) :
    BasisShapes p.nlevel (fun l => (nbasisL p).getD l 0)
      (initState p nbL) := by
  constructor
  · intro l hl
    simp [initState, hl, initBasisList]
  · intro l h1 h2
    simp [initState, h1, h2]

theorem computeNb_even : ∀ (L nbL : List Nat),
    computeNb L = Except.ok nbL → ∀ b ∈ L, b % 2 = 0 := by
  intro L
  induction L with
  | nil =>
    intro nbL h b hb
    simp at hb
  | cons x rest ih =>
    intro nbL h b hb
    rw [computeNb] at h
    by_cases hx : x % 2 = 0
    · rw [if_pos hx] at h
      rcases hr : computeNb rest with e | nbs
      · simp [hr] at h
      · rcases List.mem_cons.mp hb with rfl | hb1
        · exact hx
        · exact ih nbs hr b hb1
    · rw [if_neg hx] at h
      exact absurd h (by simp)

theorem computeNb_odd : ∀ (L : List Nat), (∃ b ∈ L, b % 2 = 1) →
    computeNb L = Except.error MGErr.oddBasis := by
  intro L
  induction L with
  | nil =>
    intro ⟨b, hb, _⟩
    simp at hb
  | cons x rest ih =>
    intro ⟨b, hb, hodd⟩
    rw [computeNb]
    by_cases hx : x % 2 = 0
    · rw [if_pos hx]
      have hex : ∃ b ∈ rest, b % 2 = 1 := by
        rcases List.mem_cons.mp hb with rfl | h1
        · omega
        · exact ⟨b, h1, hodd⟩
      rw [ih hex]
    · rw [if_neg hx]

theorem getD_even (L : List Nat) (h : ∀ b ∈ L, b % 2 = 0) :
    ∀ l : Nat, (L.getD l 0) % 2 = 0 := by
  induction L with
  | nil => intro l; simp [List.getD]
  | cons x rest ih =>
    intro l
    cases l with
    | zero => simpa using h x (by simp)
    | succ n =>
      simp only [List.getD_cons_succ]
      exact ih (fun b hb => h b (List.mem_cons_of_mem x hb)) n

theorem mgInit_ok_elim (p : MGParams) (hok : isOkE (mgInit p) = true) :
    ∃ nbL, computeNb (nbasisL p) = Except.ok nbL
      ∧ assert_correct_length
          [(northoL p).length, (nbasisL p).length, (hermitianL p).length,
            (savelinksL p).length, (vecstypeL p).length,
            (presmoothL p).length, (postsmoothL p).length,
            (setupsolveL p).length, (wrappersolveL p).length,
            (distributionL p).length, nbL.length] (p.nlevel - 1) = true
      ∧ assert_correct_solver (SolverParam.listV (SolverParamList.ofList
          [SolverParam.listV (SolverParamList.ofList (presmoothL p)),
            SolverParam.listV (SolverParamList.ofList (postsmoothL p)),
            SolverParam.listV (SolverParamList.ofList (setupsolveL p)),
            p.coarsestsolve])) = true
      ∧ isListSolver p.coarsestsolve = false
      ∧ mgInit p = resetup (mkSetupCfg p nbL) (initState p nbL) none := by
  rcases hnb : computeNb (nbasisL p) with e | nbL
  · simp only [mgInit, hnb] at hok
    simp [isOkE] at hok
  · simp only [mgInit, hnb] at hok
    split at hok
    · next h1 =>
      split at hok
      · next h2 =>
        split at hok
        · simp [isOkE] at hok
        · next h3 =>
          refine ⟨nbL, rfl, h1, h2, by simpa using h3, ?_⟩
          simp only [mgInit, hnb]
          rw [if_pos h1, if_pos h2, if_neg h3]
      · next h2 =>
        simp [isOkE] at hok
    · next h1 =>
      simp [isOkE] at hok

/-- C7: construction rejects any non-coarsest level whose configured basis
size is odd (the `assert b % 2 == 0` fires during the halved-basis
computation, before anything else); and after a successful construction
(which includes the full `resetup()` over all levels) every non-coarsest
level's basis holds exactly its configured, even, `nbasis` number of
vectors, and every non-finest level holds exactly 9 coarse link fields. -/
theorem C7_construction_shapes (p : MGParams) :
    ((∃ b ∈ nbasisL p, b % 2 = 1) → mgInit p = Except.error MGErr.oddBasis)
    ∧ (isOkE (mgInit p) = true →
        (∀ b ∈ nbasisL p, b % 2 = 0)
        ∧ (∀ l, l < p.nlevel - 1 →
            basisLenAt (mgInit p) l = some ((nbasisL p).getD l 0))
        ∧ (∀ l, 1 ≤ l → l < p.nlevel → linksLenAt (mgInit p) l = some 9)) := by
  constructor
  · intro hodd
    rw [mgInit, computeNb_odd (nbasisL p) hodd]
  · intro hok
    obtain ⟨nbL, hnb, hlen, hsol, hcl, heq⟩ := mgInit_ok_elim p hok
    have heven : ∀ b ∈ nbasisL p, b % 2 = 0 := computeNb_even _ nbL hnb
    have hevenD : ∀ l, ((nbasisL p).getD l 0) % 2 = 0 :=
      getD_even (nbasisL p) heven
    have hres : resetup (mkSetupCfg p nbL) (initState p nbL) none =
        setupLevels (mkSetupCfg p nbL) (List.range p.nlevel)
          (initState p nbL) := rfl
    rcases hsl : setupLevels (mkSetupCfg p nbL) (List.range p.nlevel)
        (initState p nbL) with e | stf
    · rw [heq, hres, hsl] at hok
      simp [isOkE] at hok
    · have hshapes : BasisShapes p.nlevel (fun l => (nbasisL p).getD l 0)
          stf :=
        setupLevels_shapes (mkSetupCfg p nbL) _ hevenD
          (List.range p.nlevel) (initState p nbL) stf
          (initState_shapes p nbL) hsl
      refine ⟨heven, ?_, ?_⟩
      · intro l hl
        rw [heq, hres, hsl]
        have hx := hshapes.1 l hl
        simpa [basisLenAt] using hx
      · intro l h1 h2
        rw [heq, hres, hsl]
        have hx := hshapes.2 l h1 h2
        simpa [linksLenAt] using hx

/-- Witness for C7: an odd scalar `nbasis` is rejected; the valid two-level
configuration ends setup with 2 basis vectors at level 0 and 9 links at
level 1. -/
theorem C7_construction_shapes_witness :
    mgInit pOdd = Except.error MGErr.oddBasis
    ∧ basisLenAt (mgInit pTwo) 0 = some 2
    ∧ linksLenAt (mgInit pTwo) 1 = some 9 :=
  ⟨(C7_construction_shapes pOdd).1 ⟨3, by decide, by decide⟩,
   ((C7_construction_shapes pTwo).2 rfl).2.1 0 (by decide),
   ((C7_construction_shapes pTwo).2 rfl).2.2 1 (by decide) (by decide)⟩

/-! ### resetup level-set validation -/

/-- C8 (amended): an explicit `resetup` level list fails (as a configuration
error) exactly when some element lies outside `[finest, coarsest] =
[0, nlevel-1]`; any list whose elements are all in range — contiguous or not
— passes validation and proceeds directly to the per-level processing.  The
original claim also requires non-contiguous sets to fail, which the code
does not check: see `C8_counterexample`. -/
theorem C8_resetup_validation (cfg : SetupCfg) (st : HState) (w : List Int) :
    ((∃ e ∈ w, ¬(0 ≤ e ∧ e ≤ (cfg.nlevel : Int) - 1)) →
      resetup cfg st (some w) = Except.error MGErr.levelOutOfRange)
    ∧ ((∀ e ∈ w, 0 ≤ e ∧ e ≤ (cfg.nlevel : Int) - 1) →
      resetup cfg st (some w) = setupLevels cfg (w.map Int.toNat) st) := by
  constructor
  · intro ⟨e, he, hbad⟩
    have hcond : ¬ ((w.all
        (fun x => decide (0 ≤ x ∧ x ≤ (cfg.nlevel : Int) - 1))) = true) := by
      rw [List.all_eq_true]
      intro hall
      exact hbad (by simpa using hall e he)
    simp only [resetup]
    rw [if_neg hcond]
  · intro hall
    have hcond : (w.all
        (fun x => decide (0 ≤ x ∧ x ≤ (cfg.nlevel : Int) - 1))) = true := by
      rw [List.all_eq_true]
      intro e he
      simpa using hall e he
    simp only [resetup]
    rw [if_pos hcond]

/-- Witness for C8: an out-of-range request fails; the in-range (and
non-contiguous) request `[0, 2]` proceeds to per-level processing. -/
theorem C8_resetup_validation_witness :
    resetup cfgThree stThree (some [5]) = Except.error MGErr.levelOutOfRange
    ∧ resetup cfgThree stThree (some [0, 2]) =
        setupLevels cfgThree (([0, 2] : List Int).map Int.toNat) stThree :=
  ⟨(C8_resetup_validation cfgThree stThree [5]).1 ⟨5, by decide, by decide⟩,
   (C8_resetup_validation cfgThree stThree [0, 2]).2 (by decide)⟩

/-- Counterexample to C8 as stated: the in-range but non-contiguous level
set `[0, 2]` on a three-level hierarchy (skipping level 1) is accepted —
mg.py lines 151-154 check only the range of each element, never contiguity
— and the whole `resetup` call succeeds. -/
theorem C8_counterexample :
    isOkE (resetup cfgThree stThree (some [0, 2])) = true := rfl

/-! ### Parameter validation -/

theorem assert_correct_solver_listV (l : SolverParamList) :
    assert_correct_solver (SolverParam.listV l) =
      assert_correct_solver_all l := by
  simp [assert_correct_solver]

theorem acs_all_ofList (L : List SolverParam) :
    assert_correct_solver_all (SolverParamList.ofList L) =
      L.all assert_correct_solver := by
  induction L with
  | nil => simp [SolverParamList.ofList, assert_correct_solver_all]
  | cons x rest ih =>
    simp [SolverParamList.ofList, assert_correct_solver_all, ih]

/-- C9 (amended): every tunable is resolved by `make_param_list` to a list
of length exactly `nlevel - 1` — a scalar is replicated, a list is taken
unchanged and construction fails validation unless its length is exactly
`nlevel - 1` (so construction success implies `NormalizedLengths`); the
coarsest solver must not be a list and, together with the pre-smoother,
post-smoother and setup-solver entries, must recursively be callable or
`None` (`ValidatedSolvers`).  The original claim's "every solver-valued
parameter" fails: the wrapper solver is never validated — see
`C9_counterexample`. -/
theorem C9_param_validation (p : MGParams) (hok : isOkE (mgInit p) = true) :
    (∀ (α : Type) (a : α) (c : Nat),
      make_param_list (Param.scalar a) c = List.replicate c a)
    ∧ (∀ (α : Type) (l : List α) (c : Nat),
      make_param_list (Param.list l) c = l)
    ∧ NormalizedLengths p
    ∧ ValidatedSolvers p := by
  obtain ⟨nbL, hnb, hlen, hsol, hcl, _⟩ := mgInit_ok_elim p hok
  refine ⟨fun α a c => rfl, fun α l c => rfl, ?_, ?_⟩
  · simp [assert_correct_length] at hlen
    obtain ⟨h1, h2, h3, h4, h5, h6, h7, h8, h9, h10, _⟩ := hlen
    exact ⟨h1, h2, h3, h4, h5, h6, h7, h8, h9, h10⟩
  · rw [assert_correct_solver_listV, acs_all_ofList] at hsol
    simp at hsol
    obtain ⟨hpre, hpost, hsetup, hcoarse⟩ := hsol
    rw [assert_correct_solver_listV, acs_all_ofList] at hpre hpost hsetup
    exact ⟨hcl, hcoarse,
      fun s hs => List.all_eq_true.mp hpre s hs,
      fun s hs => List.all_eq_true.mp hpost s hs,
      fun s hs => List.all_eq_true.mp hsetup s hs⟩

/-- Witness for C9 on the valid two-level parameter set. -/
theorem C9_param_validation_witness :
    NormalizedLengths pTwo ∧ ValidatedSolvers pTwo :=
  ⟨(C9_param_validation pTwo rfl).2.2.1, (C9_param_validation pTwo rfl).2.2.2⟩

/-- Counterexample to C9 as stated: construction succeeds although the
wrapper-solver parameter is neither callable nor `None` nor (recursively) a
list of such — `assert_correct_solver` (mg.py lines 101-103) is applied to
the pre-smoother, post-smoother, setup-solver and coarsest-solver
parameters, but not to `self.wrappersolve`. -/
theorem C9_counterexample :
    isOkE (mgInit pWrapBad) = true
    ∧ assert_correct_solver pWrapBad.wrappersolve = false
    ∧ isListSolver pWrapBad.wrappersolve = false :=
  ⟨rfl, rfl, rfl⟩

/-! ### The solver factory -/

/-- C10: `mg.__call__` ignores its `matrix` argument entirely: for every
argument value (including `None`) the returned operator equals the one built
from the stored finest operator alone; it is bound to that stored operator
`self.mat[0]` with entry at the finest level, carries `self.mat[0]`'s
operator-type/grid/checkerboard metadata when that is a wrapped matrix
operator (`None` metadata otherwise, per `matMeta`), and has both
zero-optimization flags false. -/
theorem C10_call_ignores_matrix (stored : FinestMat) (a : Option Nat) :
    mgCall stored a = mgCall stored none
    ∧ (mgCall stored a).boundMat = stored
    ∧ (mgCall stored a).entryLevel = 0
    ∧ (mgCall stored a).otype = (matMeta stored).1
    ∧ (mgCall stored a).grid = (matMeta stored).2.1
    ∧ (mgCall stored a).cb = (matMeta stored).2.2
    ∧ (mgCall stored a).zero = (false, false) :=
  ⟨rfl, rfl, rfl, rfl, rfl, rfl, rfl⟩
